import Mathlib

/-!
Verification development for `scripts/enchant_to_databox.py`: a batch job that
pulls closed helpdesk tickets, folds them into yearly/monthly counters, builds
a flat list of metric records and pushes it to a dashboard API.  The pure
computational core (timestamp parsing, duration computation, aggregation,
slug sanitization, payload construction, CSV-based CSAT ingestion) is embedded
shallowly below; HTTP transport, retries and environment lookup are outside
the embedding.  Python floats are modelled by `ℚ` (all arithmetic performed by
the script is on decimal data of small magnitude), Python `dict`s by
insertion-ordered association lists, and `None`-able values by `Option`.
-/

/-! ## Calendar arithmetic (model of `datetime.datetime` in UTC) -/

/-- A parsed `datetime.datetime` value (UTC, second resolution — the script
only ever builds timestamps through `strptime("%Y-%m-%dT%H:%M:%SZ")`). -/
structure Datetime where
  year : Nat
  month : Nat
  day : Nat
  hour : Nat
  minute : Nat
  second : Nat
deriving DecidableEq, Repr

/-- Gregorian leap-year test, as used by `datetime`. -/
def isLeap (y : Nat) : Bool :=
  decide (y % 4 = 0 ∧ (y % 100 ≠ 0 ∨ y % 400 = 0))

/-- Length of month `m` of year `y` (`0` for an out-of-range month). -/
def daysInMonth (y m : Nat) : Nat :=
  match m with
  | 1 => 31
  | 2 => if isLeap y then 29 else 28
  | 3 => 31
  | 4 => 30
  | 5 => 31
  | 6 => 30
  | 7 => 31
  | 8 => 31
  | 9 => 30
  | 10 => 31
  | 11 => 30
  | 12 => 31
  | _ => 0

/-- Days of year `y` that precede the first day of month `m`. -/
def daysBeforeMonth (y m : Nat) : Nat :=
  let L : Nat := if isLeap y then 1 else 0
  match m with
  | 1 => 0
  | 2 => 31
  | 3 => 59 + L
  | 4 => 90 + L
  | 5 => 120 + L
  | 6 => 151 + L
  | 7 => 181 + L
  | 8 => 212 + L
  | 9 => 243 + L
  | 10 => 273 + L
  | 11 => 304 + L
  | 12 => 334 + L
  | _ => 0

/-- Number of leap years in `1..y`. -/
def leapsBefore (y : Nat) : Nat := y / 4 - y / 100 + y / 400

/-- Days elapsed from 0001-01-01 to the given date (proleptic Gregorian),
i.e. `datetime.toordinal() - 1`. -/
def toDays (dt : Datetime) : Nat :=
  365 * (dt.year - 1) + leapsBefore (dt.year - 1)
    + daysBeforeMonth dt.year dt.month + (dt.day - 1)

/-- Seconds elapsed from 0001-01-01T00:00:00 to the given instant.  Comparison
and subtraction of (timezone-aware UTC) `datetime` values in the script are
modelled through this timeline embedding. -/
def toSec (dt : Datetime) : Nat :=
  86400 * toDays dt + 3600 * dt.hour + 60 * dt.minute + dt.second

/-! ## Model of `datetime.strptime(s, "%Y-%m-%dT%H:%M:%SZ")`

CPython compiles the format to the regular expression
`(\d{4})-(1[0-2]|0[1-9]|[1-9])-(3[01]|[12]\d|0[1-9]|[1-9])T` `(2[0-3]|[0-1]\d|\d):([0-5]\d|\d):([0-5]\d|\d)Z`,
requires it to match the whole string (with the usual leftmost, backtracking
alternative choice), and then runs the extracted fields through the
`datetime` constructor, which re-validates every field (year 1–9999, month
1–12, day within the month, hour ≤ 23, minute/second ≤ 59).  The candidate
lists below enumerate each field's regex alternatives in order, and `tryAll`
implements backtracking: the first candidate whose continuation completes the
whole match wins. -/

/-- Numeric value of an ASCII digit character. -/
def dv (c : Char) : Nat := c.toNat - 48

/-- Consume one expected literal character. -/
def lit (c : Char) (cs : List Char) : Option (List Char) :=
  match cs with
  | x :: rest => if x = c then some rest else none
  | [] => none

/-- Try field candidates in order; return the first whose continuation
succeeds (regex backtracking). -/
def tryAll {α : Type} : List (Nat × List Char) → (Nat → List Char → Option α) → Option α
  | [], _ => none
  | (v, rest) :: more, k =>
    match k v rest with
    | some r => some r
    | none => tryAll more k

/-- Alternatives of `%m` = `1[0-2]|0[1-9]|[1-9]`, in regex order. -/
def monthCands : List Char → List (Nat × List Char)
  | a :: b :: rest =>
    (if a = '1' ∧ '0' ≤ b ∧ b ≤ '2' then [(10 + dv b, rest)] else [])
      ++ (if a = '0' ∧ '1' ≤ b ∧ b ≤ '9' then [(dv b, rest)] else [])
      ++ (if '1' ≤ a ∧ a ≤ '9' then [(dv a, b :: rest)] else [])
  | [a] => if '1' ≤ a ∧ a ≤ '9' then [(dv a, [])] else []
  | [] => []

/-- Alternatives of `%d` = `3[01]|[12]\d|0[1-9]|[1-9]`, in regex order. -/
def dayCands : List Char → List (Nat × List Char)
  | a :: b :: rest =>
    (if a = '3' ∧ '0' ≤ b ∧ b ≤ '1' then [(30 + dv b, rest)] else [])
      ++ (if ('1' ≤ a ∧ a ≤ '2') ∧ b.isDigit then [(10 * dv a + dv b, rest)] else [])
      ++ (if a = '0' ∧ '1' ≤ b ∧ b ≤ '9' then [(dv b, rest)] else [])
      ++ (if '1' ≤ a ∧ a ≤ '9' then [(dv a, b :: rest)] else [])
  | [a] => if '1' ≤ a ∧ a ≤ '9' then [(dv a, [])] else []
  | [] => []

/-- Alternatives of `%H` = `2[0-3]|[0-1]\d|\d`, in regex order. -/
def hourCands : List Char → List (Nat × List Char)
  | a :: b :: rest =>
    (if a = '2' ∧ '0' ≤ b ∧ b ≤ '3' then [(20 + dv b, rest)] else [])
      ++ (if ('0' ≤ a ∧ a ≤ '1') ∧ b.isDigit then [(10 * dv a + dv b, rest)] else [])
      ++ (if a.isDigit then [(dv a, b :: rest)] else [])
  | [a] => if a.isDigit then [(dv a, [])] else []
  | [] => []

/-- Alternatives of `%M` and `%S` = `[0-5]\d|\d`, in regex order. -/
def minSecCands : List Char → List (Nat × List Char)
  | a :: b :: rest =>
    (if ('0' ≤ a ∧ a ≤ '5') ∧ b.isDigit then [(10 * dv a + dv b, rest)] else [])
      ++ (if a.isDigit then [(dv a, b :: rest)] else [])
  | [a] => if a.isDigit then [(dv a, [])] else []
  | [] => []

/-- The `%Y` field: exactly four digits. -/
def yearCand : List Char → Option (Nat × List Char)
  | a :: b :: c :: d :: rest =>
    if a.isDigit ∧ b.isDigit ∧ c.isDigit ∧ d.isDigit then
      some (1000 * dv a + 100 * dv b + 10 * dv c + dv d, rest)
    else none
  | _ => none

/-- Regex phase of `strptime`: extract `(year, month, day, hour, minute,
second)` from the character list, or fail. -/
def parseFields (cs : List Char) : Option (Nat × Nat × Nat × Nat × Nat × Nat) :=
  match yearCand cs with
  | none => none
  | some (y, r1) =>
    match lit '-' r1 with
    | none => none
    | some r2 =>
      tryAll (monthCands r2) fun mo r3 =>
        match lit '-' r3 with
        | none => none
        | some r4 =>
          tryAll (dayCands r4) fun d r5 =>
            match lit 'T' r5 with
            | none => none
            | some r6 =>
              tryAll (hourCands r6) fun h r7 =>
                match lit ':' r7 with
                | none => none
                | some r8 =>
                  tryAll (minSecCands r8) fun mi r9 =>
                    match lit ':' r9 with
                    | none => none
                    | some r10 =>
                      tryAll (minSecCands r10) fun s r11 =>
                        match r11 with
                        | ['Z'] => some (y, mo, d, h, mi, s)
                        | _ => none

/-- Validation phase: the `datetime` constructor's field checks. -/
def mkValidated (y mo d h mi s : Nat) : Option Datetime :=
  if 1 ≤ y ∧ y ≤ 9999 ∧ 1 ≤ mo ∧ mo ≤ 12 ∧ 1 ≤ d ∧ d ≤ daysInMonth y mo
      ∧ h ≤ 23 ∧ mi ≤ 59 ∧ s ≤ 59 then
    some ⟨y, mo, d, h, mi, s⟩
  else none

/-- Model of `parse_iso_z` (src line 55): `None`/empty input gives `None`,
otherwise `strptime` with the fixed format, `None` on any parse error. -/
def parse_iso_z (s : Option String) : Option Datetime :=
  match s with
  | none => none
  | some str =>
    if str = "" then none
    else
      (parseFields str.data).bind fun (y, mo, d, h, mi, s) => mkValidated y mo d h mi s

/-! ## Rendering month keys (model of `month_floor_iso`, src line 67) -/

/-- ASCII digit character for `n ≤ 9`. -/
def asciiDigit (n : Nat) : Char := Char.ofNat (48 + n)

/-- Four-digit decimal rendering (the `%Y` rendering for the years 1000–9999,
the only years reachable for in-window tickets). -/
def pad4 (n : Nat) : List Char :=
  [asciiDigit (n / 1000 % 10), asciiDigit (n / 100 % 10),
   asciiDigit (n / 10 % 10), asciiDigit (n % 10)]

/-- Two-digit zero-padded decimal rendering (the `%m` rendering). -/
def pad2 (n : Nat) : List Char := [asciiDigit (n / 10 % 10), asciiDigit (n % 10)]

/-- The ISO string of the first instant of month `(y, m)`. -/
def fmtMonth (y m : Nat) : String :=
  String.mk (pad4 y ++ '-' :: pad2 m ++ ("-01T00:00:00Z".data))

/-- Model of `month_floor_iso` (src line 67): truncate a UTC datetime to the
first instant of its calendar month and render it back to an ISO string. -/
def month_floor_iso (dt : Datetime) : String := fmtMonth dt.year dt.month

/-! ## String comparison (Python string `<`, used by `sorted`) -/

/-- Code-point lexicographic `≤` on character lists, the order Python uses to
compare strings. -/
def listLex : List Char → List Char → Bool
  | [], _ => true
  | _ :: _, [] => false
  | a :: as, b :: bs =>
    if a.toNat < b.toNat then true
    else if b.toNat < a.toNat then false
    else listLex as bs

/-- Python string `≤`. -/
def strLeB (s t : String) : Bool := listLex s.data t.data

/-! ## Resolution minutes and rounding -/

/-- Round-half-to-even to an integer (the behaviour of Python `round` on the
exact value; the script's data is decimal, modelled exactly in `ℚ`). -/
def bankerRound (q : ℚ) : ℤ :=
  let f := ⌊q⌋
  if q - f < 1 / 2 then f
  else if (1 : ℚ) / 2 < q - f then f + 1
  else if f % 2 = 0 then f else f + 1

/-- Model of Python `round(x, 2)`. -/
def round2 (q : ℚ) : ℚ := (bankerRound (q * 100) : ℚ) / 100

/-- Model of `minutes_between` (src line 71): parse both timestamps; `None`
if either fails, otherwise the non-negative difference in minutes. -/
def minutes_between (created_at updated_at : Option String) : Option ℚ :=
  match parse_iso_z created_at, parse_iso_z updated_at with
  | some c, some u => some (max 0 (((toSec u : ℚ) - (toSec c : ℚ)) / 60))
  | _, _ => none

/-! ## Tag slugs (model of `slugify_tag`, src line 78) -/

/-- Characters the regex class `[a-z0-9]` accepts (code points of `a`–`z`
and `0`–`9`). -/
def isLowerAlnum (c : Char) : Bool :=
  decide ((97 ≤ c.toNat ∧ c.toNat ≤ 122) ∨ (48 ≤ c.toNat ∧ c.toNat ≤ 57))

/-- State machine for `re.sub(r"[^a-z0-9]+", "_", s)`: `inRun` records whether
the previous character was part of a run already replaced by `_`. -/
def subAux (inRun : Bool) : List Char → List Char
  | [] => []
  | c :: cs =>
    if isLowerAlnum c then c :: subAux false cs
    else if inRun then subAux true cs
    else '_' :: subAux true cs

/-- The character-list pipeline of `slugify_tag`: lowercase (modelled
characterwise), collapse every run of characters outside `[a-z0-9]` to a
single underscore, strip trailing then leading underscores, truncate to 60
characters. -/
def slugCore (l : List Char) : List Char :=
  (List.dropWhile (fun c => c = '_')
    ((List.dropWhile (fun c => c = '_')
      (subAux false (l.map Char.toLower)).reverse).reverse)).take 60

/-- Model of `slugify_tag` (src line 78):
`re.sub(r"[^a-z0-9]+", "_", name.lower()).strip("_")[:60] or "tag"`. -/
def slugify_tag (s : String) : String :=
  if slugCore s.data = [] then "tag" else String.mk (slugCore s.data)

/-! ## Configuration constants (src lines 24–28) -/

def YEAR_START_ISO : String := "2025-01-01T00:00:00Z"

/-- Tags excluded from the tag frequency table. -/
def EXCLUDED_TAGS : List String := ["SU", "Core Support"]

/-- The parsed `YEAR_START_ISO` (the script asserts the parse succeeds;
`parse_year_start` below discharges that assertion). -/
def year_start_dt : Datetime := ⟨2025, 1, 1, 0, 0, 0⟩

/-! ## Tickets (the fields the aggregation loop reads) -/

/-- An entry of a ticket's `labels` list: either an embedded label object
(whose `name` may be absent) or a bare value rendered with `str`. -/
inductive LabelVal
  | obj (name : Option String)
  | raw (s : String)
deriving DecidableEq, Repr

/-- The `name` the loop extracts from a label entry (src line 155). -/
def labelName : LabelVal → Option String
  | .obj n => n
  | .raw s => some s

/-- A raw ticket record, restricted to the fields the loop reads with
`t.get(...)` (each may be absent). -/
structure Ticket where
  state : Option String
  created_at : Option String
  updated_at : Option String
  labels : Option (List LabelVal)
deriving DecidableEq, Repr

/-! ## Aggregation state (src lines 122–165)

Python `dict`s/`defaultdict`s are modelled as insertion-ordered association
lists; `+=` on a `defaultdict` key appends the key with the increment when it
is new, else updates it in place. -/

structure Agg where
  resolved_total : Nat
  res_minutes_all : List ℚ
  tag_counts : List (String × Nat)
  m_counts : List (String × Nat)
  m_res_sum : List (String × ℚ)
  m_res_n : List (String × Nat)
deriving DecidableEq, Repr

def initAgg : Agg := ⟨0, [], [], [], [], []⟩

/-- `d[k] += 1` on a `defaultdict(int)` / `d[k] = d.get(k, 0) + 1`. -/
def bumpNat (l : List (String × Nat)) (k : String) : List (String × Nat) :=
  match l with
  | [] => [(k, 1)]
  | (k', v) :: rest => if k' = k then (k', v + 1) :: rest else (k', v) :: bumpNat rest k

/-- `d[k] += q` on a `defaultdict(float)`. -/
def addQ (l : List (String × ℚ)) (k : String) (q : ℚ) : List (String × ℚ) :=
  match l with
  | [] => [(k, q)]
  | (k', v) :: rest => if k' = k then (k', v + q) :: rest else (k', v) :: addQ rest k q

/-- Keys of an association list, in insertion order. -/
def keysOf {β : Type} (l : List (String × β)) : List String := l.map Prod.fst

/-- Dictionary read with the `defaultdict` default `0`. -/
def lookupNat (l : List (String × Nat)) (k : String) : Nat :=
  (((l.find? fun p => decide (p.1 = k)).map Prod.snd).getD 0)

/-- Dictionary read with the `defaultdict` default `0.0`. -/
def lookupQ (l : List (String × ℚ)) (k : String) : ℚ :=
  (((l.find? fun p => decide (p.1 = k)).map Prod.snd).getD 0)

/-- The tag-counting inner loop (src lines 153–158): skip entries with an
absent or empty name and names in `EXCLUDED_TAGS`; count the rest. -/
def countLabels (tc : List (String × Nat)) : List LabelVal → List (String × Nat)
  | [] => tc
  | l :: ls =>
    match labelName l with
    | none => countLabels tc ls
    | some name =>
      if name = "" ∨ name ∈ EXCLUDED_TAGS then countLabels tc ls
      else countLabels (bumpNat tc name) ls

/-- One iteration of the aggregation loop (src lines 133–165): skip tickets
whose state is not `closed`, whose `updated_at` does not parse, or whose
`updated_at` is before the year start; otherwise count the ticket, collect
its resolution minutes when computable, count its labels, and update the
month buckets keyed by the close month. -/
def agg_step (a : Agg) (t : Ticket) : Agg :=
  if t.state ≠ some "closed" then a
  else
    match parse_iso_z t.updated_at with
    | none => a
    | some u =>
      if toSec u < toSec year_start_dt then a
      else
        let m := minutes_between t.created_at t.updated_at
        let mon := month_floor_iso u
        { resolved_total := a.resolved_total + 1
          res_minutes_all := a.res_minutes_all ++ (match m with | some q => [q] | none => [])
          tag_counts := countLabels a.tag_counts (t.labels.getD [])
          m_counts := bumpNat a.m_counts mon
          m_res_sum := match m with | some q => addQ a.m_res_sum mon q | none => a.m_res_sum
          m_res_n := match m with | some _ => bumpNat a.m_res_n mon | none => a.m_res_n }

/-- The whole aggregation loop over the ticket stream. -/
def aggregate (ts : List Ticket) : Agg := ts.foldl agg_step initAgg

/-- `avg_resolution_year` (src line 167): mean of the collected minutes
rounded to two decimals, `0.0` when nothing was collected. -/
def avg_resolution_year (a : Agg) : ℚ :=
  if a.res_minutes_all.isEmpty then 0
  else round2 (a.res_minutes_all.sum / (a.res_minutes_all.length : ℚ))

/-! ## Sorting (model of Python `sorted`, which is stable)

Stable sorts agree on every input, so insertion sort below computes exactly
Python's result for these comparators. -/

def insertLe {α : Type} (le : α → α → Bool) (x : α) : List α → List α
  | [] => [x]
  | y :: ys => if le x y then x :: y :: ys else y :: insertLe le x ys

def isort {α : Type} (le : α → α → Bool) : List α → List α
  | [] => []
  | x :: xs => insertLe le x (isort le xs)

/-- Comparator realised by `sorted(..., key=lambda kv: kv[1], reverse=True)`:
descending by count, stable on ties. -/
def tagLe (p q : String × Nat) : Bool := decide (q.2 ≤ p.2)

/-! ## CSAT CSV source (src lines 181–229)

The configuration is the `CSAT_CSV` environment variable together with the
file system: unset path, set-but-missing file, or a present file whose
`csv.DictReader` rows are modelled as association lists from column name to
cell string. -/

abbrev Row := List (String × String)

inductive CsatSource
  | unset
  | missing
  | file (rows : List Row)

def rowLookup (r : Row) (k : String) : Option String :=
  (r.find? fun p => decide (p.1 = k)).map Prod.snd

/-- Python whitespace stripped by `str.strip()` (ASCII range). -/
def isPySpace (c : Char) : Bool :=
  decide (c = ' ' ∨ c = '\t' ∨ c = '\n' ∨ c = '\x0d' ∨ c = '\x0b' ∨ c = '\x0c')

def stripWs (l : List Char) : List Char :=
  List.dropWhile isPySpace ((List.dropWhile isPySpace l.reverse).reverse)

def digitsToNat (l : List Char) : Nat := l.foldl (fun acc c => 10 * acc + dv c) 0

/-- Model of Python `float(s)` on decimal literals: optional surrounding
whitespace, optional sign, digits with an optional fraction part (at least
one digit overall), optional exponent.  Non-finite spellings (`inf`, `nan`)
and digit-grouping underscores are not representable in `ℚ` and are treated
as unparseable. -/
def pyFloat (s : String) : Option ℚ :=
  let cs := stripWs s.data
  let signRest : ℚ × List Char :=
    match cs with
    | '+' :: r => (1, r)
    | '-' :: r => (-1, r)
    | r => (1, r)
  let sign := signRest.1
  let cs1 := signRest.2
  let ip := cs1.takeWhile Char.isDigit
  let cs2 := cs1.dropWhile Char.isDigit
  let fpRest : List Char × List Char :=
    match cs2 with
    | '.' :: r => (r.takeWhile Char.isDigit, r.dropWhile Char.isDigit)
    | r => ([], r)
  let fp := fpRest.1
  let cs3 := fpRest.2
  if ip = [] ∧ fp = [] then none
  else
    let mant : ℚ := sign * ((digitsToNat ip : ℚ) + (digitsToNat fp : ℚ) / ((10 : ℚ) ^ fp.length))
    match cs3 with
    | [] => some mant
    | e :: r =>
      if e = 'e' ∨ e = 'E' then
        let esignRest : Bool × List Char :=
          match r with
          | '+' :: r2 => (false, r2)
          | '-' :: r2 => (true, r2)
          | r2 => (false, r2)
        let ed := esignRest.2.takeWhile Char.isDigit
        let r2 := esignRest.2.dropWhile Char.isDigit
        if ed = [] ∨ r2 ≠ [] then none
        else if esignRest.1 then some (mant / (10 : ℚ) ^ digitsToNat ed)
        else some (mant * (10 : ℚ) ^ digitsToNat ed)
      else none

/-- Tolerant score extraction (src lines 201–208): the first alias column
that is present, not empty/`"NaN"`, and parses as a float. -/
def firstScore (r : Row) : List String → Option ℚ
  | [] => none
  | k :: ks =>
    match rowLookup r k with
    | some v =>
      if v = "" ∨ v = "NaN" then firstScore r ks
      else
        match pyFloat v with
        | some q => some q
        | none => firstScore r ks
    | none => firstScore r ks

def rowScore (r : Row) : Option ℚ :=
  firstScore r ["csat_percent", "csat", "csat_pct", "csat_percentage"]

/-- `row.get("date") or row.get("month") or ""` (src line 212). -/
def dateRaw (r : Row) : String :=
  match rowLookup r "date" with
  | some s => if s = "" then (rowLookup r "month").getD "" else s
  | none => (rowLookup r "month").getD ""

/-- `to_month_iso` (src line 188): strip, keep the first seven characters as
`YYYY-MM` when long enough, else a fixed default month. -/
def to_month_iso (s : String) : String :=
  let s2 := stripWs s.data
  if 7 ≤ s2.length then String.mk (s2.take 7) ++ "-01T00:00:00Z"
  else "2025-01-01T00:00:00Z"

/-! ## Metric records and the payload (src lines 214–254) -/

/-- A Databox metric record `{key, value, date?}`. -/
structure Metric where
  key : String
  value : ℚ
  date : Option String
deriving DecidableEq, Repr

/-- The records `push_csat_from_csv_if_present` appends: one monthly record
per row with a readable score (in file order), then the yearly average when
at least one score was collected. -/
def csatRecords : CsatSource → List Metric
  | .unset => []
  | .missing => []
  | .file rows =>
    (rows.filterMap fun r =>
        (rowScore r).map fun q =>
          ({ key := "enchant_csat_avg_monthly", value := round2 q,
             date := some (to_month_iso (dateRaw r)) } : Metric))
      ++ (let vals := rows.filterMap rowScore
          if vals.isEmpty then []
          else [{ key := "enchant_csat_avg_2025",
                  value := round2 (vals.sum / (vals.length : ℚ)), date := none }])

/-- Model of `push_csat_from_csv_if_present` (src line 181): appends the CSAT
records to the payload; with an unset path or missing file the payload is
returned unchanged (the function returns early). -/
def push_csat_from_csv_if_present (c : CsatSource) (payload : List Metric) : List Metric :=
  payload ++ csatRecords c

/-- The top-10 tag records (src lines 242–243). -/
def topTagRecs (tc : List (String × Nat)) : List Metric :=
  ((isort tagLe tc).take 10).map fun p =>
    { key := "enchant_tag_" ++ slugify_tag p.1 ++ "_2025_count", value := (p.2 : ℚ), date := none }

/-- The monthly resolved-count series (src lines 246–247): one record per
month key, keys sorted with string comparison. -/
def monthCountRecs (mc : List (String × Nat)) : List Metric :=
  (isort strLeB (keysOf mc)).map fun mon =>
    { key := "enchant_resolved_monthly", value := (lookupNat mc mon : ℚ), date := some mon }

/-- The monthly average-resolution series (src lines 249–251): one record per
month with collected durations, keys sorted with string comparison. -/
def monthAvgRecs (sums : List (String × ℚ)) (ns : List (String × Nat)) : List Metric :=
  (isort strLeB (keysOf ns)).map fun mon =>
    { key := "enchant_resolution_minutes_avg_monthly",
      value := round2 (lookupQ sums mon / (lookupNat ns mon : ℚ)), date := some mon }

/-- The full payload construction (src lines 236–254): the two mandatory
scalars, the top-10 tag counts, the two monthly series, then the optional
CSAT records. -/
def build_payload (a : Agg) (c : CsatSource) : List Metric :=
  push_csat_from_csv_if_present c
    ([{ key := "enchant_resolved_2025_total", value := (a.resolved_total : ℚ), date := none },
      { key := "enchant_resolution_minutes_avg_2025", value := avg_resolution_year a, date := none }]
      ++ topTagRecs a.tag_counts
      ++ monthCountRecs a.m_counts
      ++ monthAvgRecs a.m_res_sum a.m_res_n)

/-! ## Basic facts about the aggregation loop -/

/-- The script's `assert year_start_dt` (src line 131): the configured window
start parses, to the expected instant. -/
theorem parse_year_start : parse_iso_z (some YEAR_START_ISO) = some year_start_dt := by decide

/-- Characterisation of the tickets the loop does not skip: state `closed`,
parseable `updated_at`, and `updated_at` not before the year start.  This is
exactly the guard structure of src lines 134–142; note that no upper bound
(no comparison against the current time) appears. -/
def relevantB (t : Ticket) : Bool :=
  if t.state ≠ some "closed" then false
  else
    match parse_iso_z t.updated_at with
    | none => false
    | some u => if toSec u < toSec year_start_dt then false else true

theorem agg_step_of_not_relevant {t : Ticket} (a : Agg) (h : relevantB t = false) :
    agg_step a t = a := by
  unfold relevantB at h
  unfold agg_step
  split at h
  · next hs => exact if_pos hs
  · next hs =>
    rw [if_neg hs]
    split at h
    · rfl
    · next u hp =>
      split at h
      · next hlt => exact if_pos hlt
      · exact absurd h (by simp)

theorem agg_step_total {t : Ticket} (a : Agg) :
    (agg_step a t).resolved_total = a.resolved_total + (if relevantB t then 1 else 0) := by
  by_cases h : relevantB t = true
  · rw [if_pos h]
    unfold relevantB at h
    unfold agg_step
    split at h
    · exact absurd h (by simp)
    · next hs =>
      rw [if_neg hs]
      split at h
      · exact absurd h (by simp)
      · next u hp =>
        split at h
        · exact absurd h (by simp)
        · next hlt => rw [if_neg hlt]
  · rw [agg_step_of_not_relevant a (by simpa using h)]
    simp [h]

theorem foldl_agg_total : ∀ (ts : List Ticket) (a : Agg),
    (ts.foldl agg_step a).resolved_total = a.resolved_total + ts.countP relevantB := by
  intro ts
  induction ts with
  | nil => intro a; simp
  | cons t ts ih =>
    intro a
    rw [List.foldl_cons, ih, agg_step_total a, List.countP_cons]
    generalize (if relevantB t = true then 1 else 0) = k
    omega

/-- Preservation of an invariant along the aggregation fold. -/
theorem foldl_agg_inv {P : Agg → Prop} (hstep : ∀ a t, P a → P (agg_step a t)) :
    ∀ (ts : List Ticket) (a : Agg), P a → P (ts.foldl agg_step a) := by
  intro ts
  induction ts with
  | nil => intro a h; simpa using h
  | cons t ts ih => intro a h; rw [List.foldl_cons]; exact ih _ (hstep a t h)

/-! ## The spec scenario (C1) -/

/-- First scenario ticket: created 2025-01-01T00:00:00Z, closed (updated)
2025-01-01T01:30:00Z, tag `Bug`. -/
def scenarioT1 : Ticket :=
  { state := some "closed", created_at := some "2025-01-01T00:00:00Z",
    updated_at := some "2025-01-01T01:30:00Z", labels := some [.obj (some "Bug")] }

/-- Second scenario ticket: created 2025-02-01T00:00:00Z, closed (updated)
2025-02-01T00:10:00Z, tags `Bug` and `UI`. -/
def scenarioT2 : Ticket :=
  { state := some "closed", created_at := some "2025-02-01T00:00:00Z",
    updated_at := some "2025-02-01T00:10:00Z", labels := some [.obj (some "Bug"), .obj (some "UI")] }

/-- C1: on exactly the two scenario tickets the aggregator produces a year
total of 2 resolved tickets, a yearly average resolution of 50.0 minutes,
tag counts Bug ↦ 2 and UI ↦ 1, and month buckets with count 1 for January
and February whose emitted average-resolution records carry 90.0 and 10.0
minutes respectively. -/
theorem C1_scenario_two_closed_tickets :
    (aggregate [scenarioT1, scenarioT2]).resolved_total = 2
    ∧ avg_resolution_year (aggregate [scenarioT1, scenarioT2]) = 50
    ∧ (aggregate [scenarioT1, scenarioT2]).tag_counts = [("Bug", 2), ("UI", 1)]
    ∧ (aggregate [scenarioT1, scenarioT2]).m_counts =
        [("2025-01-01T00:00:00Z", 1), ("2025-02-01T00:00:00Z", 1)]
    ∧ monthAvgRecs (aggregate [scenarioT1, scenarioT2]).m_res_sum
        (aggregate [scenarioT1, scenarioT2]).m_res_n =
        [{ key := "enchant_resolution_minutes_avg_monthly", value := 90,
           date := some "2025-01-01T00:00:00Z" },
         { key := "enchant_resolution_minutes_avg_monthly", value := 10,
           date := some "2025-02-01T00:00:00Z" }] := by
  have hm1 : minutes_between (some "2025-01-01T00:00:00Z") (some "2025-01-01T01:30:00Z") = some 90 := by
    have h1 : parse_iso_z (some "2025-01-01T00:00:00Z") = some ⟨2025,1,1,0,0,0⟩ := by decide
    have h2 : parse_iso_z (some "2025-01-01T01:30:00Z") = some ⟨2025,1,1,1,30,0⟩ := by decide
    have h3 : toSec ⟨2025,1,1,1,30,0⟩ = 63871291800 := by decide
    have h4 : toSec ⟨2025,1,1,0,0,0⟩ = 63871286400 := by decide
    simp only [minutes_between, h1, h2, h3, h4]; norm_num
  have hm2 : minutes_between (some "2025-02-01T00:00:00Z") (some "2025-02-01T00:10:00Z") = some 10 := by
    have h1 : parse_iso_z (some "2025-02-01T00:00:00Z") = some ⟨2025,2,1,0,0,0⟩ := by decide
    have h2 : parse_iso_z (some "2025-02-01T00:10:00Z") = some ⟨2025,2,1,0,10,0⟩ := by decide
    have h3 : toSec ⟨2025,2,1,0,10,0⟩ = 63873965400 := by decide
    have h4 : toSec ⟨2025,2,1,0,0,0⟩ = 63873964800 := by decide
    simp only [minutes_between, h1, h2, h3, h4]; norm_num
  have hs1 : agg_step initAgg scenarioT1 =
      ⟨1, [90], [("Bug", 1)], [("2025-01-01T00:00:00Z", 1)],
       [("2025-01-01T00:00:00Z", 90)], [("2025-01-01T00:00:00Z", 1)]⟩ := by
    have h2 : parse_iso_z (some "2025-01-01T01:30:00Z") = some ⟨2025,1,1,1,30,0⟩ := by decide
    simp only [agg_step, scenarioT1, h2, hm1]
    rw [if_neg (by decide), if_neg (by decide)]
    rfl
  have hs2 : agg_step
      (⟨1, [90], [("Bug", 1)], [("2025-01-01T00:00:00Z", 1)],
        [("2025-01-01T00:00:00Z", 90)], [("2025-01-01T00:00:00Z", 1)]⟩ : Agg) scenarioT2 =
      ⟨2, [90, 10], [("Bug", 2), ("UI", 1)],
       [("2025-01-01T00:00:00Z", 1), ("2025-02-01T00:00:00Z", 1)],
       [("2025-01-01T00:00:00Z", 90), ("2025-02-01T00:00:00Z", 10)],
       [("2025-01-01T00:00:00Z", 1), ("2025-02-01T00:00:00Z", 1)]⟩ := by
    have h2 : parse_iso_z (some "2025-02-01T00:10:00Z") = some ⟨2025,2,1,0,10,0⟩ := by decide
    simp only [agg_step, scenarioT2, h2, hm2]
    rw [if_neg (by decide), if_neg (by decide)]
    rfl
  have hagg : aggregate [scenarioT1, scenarioT2] =
      ⟨2, [90, 10], [("Bug", 2), ("UI", 1)],
       [("2025-01-01T00:00:00Z", 1), ("2025-02-01T00:00:00Z", 1)],
       [("2025-01-01T00:00:00Z", 90), ("2025-02-01T00:00:00Z", 10)],
       [("2025-01-01T00:00:00Z", 1), ("2025-02-01T00:00:00Z", 1)]⟩ := by
    simp only [aggregate, List.foldl_cons, List.foldl_nil, hs1, hs2]
  refine ⟨by rw [hagg], ?_, by rw [hagg], by rw [hagg], ?_⟩
  · rw [hagg]
    show round2 (([90, 10] : List ℚ).sum / ((2 : Nat) : ℚ)) = 50
    norm_num [round2, bankerRound, List.sum_cons, List.sum_nil]
  · rw [hagg]
    have hsort : isort strLeB
        (keysOf [("2025-01-01T00:00:00Z", (1 : Nat)), ("2025-02-01T00:00:00Z", 1)]) =
        ["2025-01-01T00:00:00Z", "2025-02-01T00:00:00Z"] := by decide
    simp only [monthAvgRecs]
    rw [hsort]
    simp only [List.map]
    have l1 : lookupQ [("2025-01-01T00:00:00Z", (90 : ℚ)), ("2025-02-01T00:00:00Z", 10)]
        "2025-01-01T00:00:00Z" = 90 := rfl
    have l2 : lookupQ [("2025-01-01T00:00:00Z", (90 : ℚ)), ("2025-02-01T00:00:00Z", 10)]
        "2025-02-01T00:00:00Z" = 10 := rfl
    have l3 : lookupNat [("2025-01-01T00:00:00Z", 1), ("2025-02-01T00:00:00Z", 1)]
        "2025-01-01T00:00:00Z" = 1 := rfl
    have l4 : lookupNat [("2025-01-01T00:00:00Z", 1), ("2025-02-01T00:00:00Z", 1)]
        "2025-02-01T00:00:00Z" = 1 := rfl
    rw [l1, l2, l3, l4]
    norm_num [round2, bankerRound, Metric.mk.injEq, List.cons.injEq]

/-! ## C2: window membership -/

/-- A closed ticket whose `updated_at` lies far beyond any plausible run time
("now"), used to show the loop performs no upper-bound check. -/
def futureTicket : Ticket :=
  { state := some "closed", created_at := none,
    updated_at := some "2099-06-15T12:00:00Z", labels := none }

/-- C2 counterexample: the claim says a consumed ticket contributes only if
its anchor timestamp is not after "now"; but this ticket, whose anchor
2099-06-15 is after 2026-01-01 (hence after any "now" at which this code and
its 2025 reporting window are in use), is counted.  The loop compares the
anchor only against the year start, never against the current time. -/
theorem C2_counterexample_no_upper_bound :
    (aggregate [futureTicket]).resolved_total = 1
    ∧ (parse_iso_z futureTicket.updated_at).map
        (fun u => decide (toSec ⟨2026, 1, 1, 0, 0, 0⟩ < toSec u)) = some true := by
  constructor
  · decide
  · decide

/-- C2 (amended): a consumed ticket contributes to the aggregates exactly
when its state is `closed` and its parsed `updated_at` is at or after the
start of the target year; no upper bound against "now" is applied, and this
client-side predicate (`relevantB`) alone decides membership. -/
theorem C2_amended_window_filter :
    (∀ ts : List Ticket, (aggregate ts).resolved_total = ts.countP relevantB)
    ∧ (∀ t : Ticket, relevantB t = true ↔
        (t.state = some "closed" ∧
          ∃ u, parse_iso_z t.updated_at = some u ∧ toSec year_start_dt ≤ toSec u)) := by
  constructor
  · intro ts
    have h := foldl_agg_total ts initAgg
    simpa [aggregate, initAgg] using h
  · intro t
    unfold relevantB
    constructor
    · intro h
      split at h
      · exact absurd h (by simp)
      · next hs =>
        split at h
        · exact absurd h (by simp)
        · next u hp =>
          split at h
          · exact absurd h (by simp)
          · next hlt =>
            exact ⟨by simpa using hs, u, hp, by omega⟩
    · rintro ⟨hs, u, hp, hle⟩
      rw [if_neg (by simp [hs]), hp]
      simp only
      rw [if_neg (by omega)]

/-! ## C5: tickets with missing timestamps -/

/-- A closed ticket with a valid `created_at` but no `updated_at`. -/
def missingAnchorTicket : Ticket :=
  { state := some "closed", created_at := some "2025-03-01T00:00:00Z",
    updated_at := none, labels := none }

/-- C5 counterexample: the claim says a ticket missing either timestamp still
contributes to the year-total count; but a closed ticket missing its anchor
(`updated_at`) is skipped entirely by the loop's `continue` (src line 141)
and contributes nothing — the total stays 0. -/
theorem C5_counterexample_missing_anchor_not_counted :
    missingAnchorTicket.state = some "closed"
    ∧ missingAnchorTicket.updated_at = none
    ∧ (aggregate [missingAnchorTicket]).resolved_total = 0 := by
  refine ⟨rfl, rfl, ?_⟩
  decide

/-- C5 (amended): a closed ticket with a parseable in-window `updated_at`
whose `created_at` is missing or unparseable contributes to the resolved
total (and to the month count bucket) but to no duration accumulator; a
ticket whose `updated_at` is missing or unparseable is skipped entirely. -/
theorem C5_amended_missing_timestamps :
    (∀ (a : Agg) (t : Ticket) (u : Datetime),
      t.state = some "closed" →
      parse_iso_z t.updated_at = some u →
      ¬toSec u < toSec year_start_dt →
      parse_iso_z t.created_at = none →
        (agg_step a t).resolved_total = a.resolved_total + 1
        ∧ (agg_step a t).res_minutes_all = a.res_minutes_all
        ∧ (agg_step a t).m_res_sum = a.m_res_sum
        ∧ (agg_step a t).m_res_n = a.m_res_n
        ∧ (agg_step a t).m_counts = bumpNat a.m_counts (month_floor_iso u))
    ∧ (∀ (a : Agg) (t : Ticket), parse_iso_z t.updated_at = none → agg_step a t = a) := by
  constructor
  · intro a t u hs hpu hlt hc
    simp only [agg_step, hpu, minutes_between, hc]
    rw [if_neg (by simp [hs]), if_neg hlt]
    simp
  · intro a t hpu
    simp [agg_step, hpu]

/-- A closed, in-window ticket whose `created_at` is absent. -/
def missingCreatedTicket : Ticket :=
  { state := some "closed", created_at := none,
    updated_at := some "2025-05-01T00:00:00Z", labels := none }

/-- A closed ticket whose `updated_at` does not parse. -/
def badAnchorTicket : Ticket :=
  { state := some "closed", created_at := some "2025-05-01T00:00:00Z",
    updated_at := some "not a timestamp", labels := none }

theorem C5_witness :
    ((agg_step initAgg missingCreatedTicket).resolved_total = initAgg.resolved_total + 1
      ∧ (agg_step initAgg missingCreatedTicket).res_minutes_all = initAgg.res_minutes_all)
    ∧ agg_step initAgg badAnchorTicket = initAgg :=
  ⟨⟨(C5_amended_missing_timestamps.1 initAgg missingCreatedTicket ⟨2025, 5, 1, 0, 0, 0⟩
      (by decide) (by decide) (by decide) (by decide)).1,
    (C5_amended_missing_timestamps.1 initAgg missingCreatedTicket ⟨2025, 5, 1, 0, 0, 0⟩
      (by decide) (by decide) (by decide) (by decide)).2.1⟩,
   C5_amended_missing_timestamps.2 initAgg badAnchorTicket (by decide)⟩

/-! ## C6: monthly counts sum to the yearly total -/

/-- Total of the counter values of an association list. -/
def sumVals (l : List (String × Nat)) : Nat := (l.map Prod.snd).sum

theorem sumVals_bumpNat : ∀ (l : List (String × Nat)) (k : String),
    sumVals (bumpNat l k) = sumVals l + 1 := by
  intro l k
  induction l with
  | nil => simp [bumpNat, sumVals]
  | cons p rest ih =>
    obtain ⟨k', v⟩ := p
    unfold bumpNat
    split
    · simp [sumVals]; omega
    · simp only [sumVals, List.map_cons, List.sum_cons] at ih ⊢
      omega

/-- C6: after aggregating any ticket stream, the monthly resolved-count
values sum to the year-total resolved count (both are driven by the same
`updated_at` anchor, incremented together at src lines 145 and 162). -/
theorem C6_monthly_counts_sum_to_total (ts : List Ticket) :
    sumVals (aggregate ts).m_counts = (aggregate ts).resolved_total := by
  have hstep : ∀ (a : Agg) (t : Ticket),
      sumVals a.m_counts = a.resolved_total →
      sumVals (agg_step a t).m_counts = (agg_step a t).resolved_total := by
    intro a t h
    unfold agg_step
    split
    · exact h
    · split
      · exact h
      · next u hu =>
        split
        · exact h
        · show sumVals (bumpNat a.m_counts (month_floor_iso u)) = a.resolved_total + 1
          rw [sumVals_bumpNat, h]
  exact foldl_agg_inv hstep ts initAgg rfl

/-! ## C8: a run with zero relevant tickets -/

theorem foldl_agg_id : ∀ (ts : List Ticket) (a : Agg),
    (∀ t ∈ ts, relevantB t = false) → ts.foldl agg_step a = a := by
  intro ts
  induction ts with
  | nil => intro a _; rfl
  | cons t ts ih =>
    intro a h
    rw [List.foldl_cons, agg_step_of_not_relevant a (h t (by simp))]
    exact ih a fun t' ht' => h t' (by simp [ht'])

/-- C8: with zero relevant tickets, the yearly average resolution is exactly
0.0 (not an error), and the payload still opens with the two mandatory scalar
records (total 0 and average 0.0). -/
theorem C8_zero_relevant_tickets (ts : List Ticket) (c : CsatSource)
    (h : ∀ t ∈ ts, relevantB t = false) :
    avg_resolution_year (aggregate ts) = 0
    ∧ (build_payload (aggregate ts) c).take 2 =
        [{ key := "enchant_resolved_2025_total", value := 0, date := none },
         { key := "enchant_resolution_minutes_avg_2025", value := 0, date := none }] := by
  have hagg : aggregate ts = initAgg := foldl_agg_id ts initAgg h
  rw [hagg]
  constructor
  · rfl
  · simp [build_payload, push_csat_from_csv_if_present, topTagRecs, monthCountRecs,
      monthAvgRecs, keysOf, isort, initAgg, avg_resolution_year, List.take]

/-- An open (hence irrelevant) ticket. -/
def openTicket : Ticket :=
  { state := some "open", created_at := some "2025-03-01T00:00:00Z",
    updated_at := some "2025-03-02T00:00:00Z", labels := none }

theorem C8_witness :
    avg_resolution_year (aggregate [openTicket]) = 0
    ∧ (build_payload (aggregate [openTicket]) CsatSource.unset).take 2 =
        [{ key := "enchant_resolved_2025_total", value := 0, date := none },
         { key := "enchant_resolution_minutes_avg_2025", value := 0, date := none }] :=
  C8_zero_relevant_tickets [openTicket] CsatSource.unset (by decide)

/-! ## C9: graceful CSAT degradation -/

theorem length_filterMap_isSome {α β : Type} (f : α → Option β) :
    ∀ l : List α, (l.filterMap f).length = l.countP fun x => (f x).isSome := by
  intro l
  induction l with
  | nil => rfl
  | cons x l ih =>
    rw [List.filterMap_cons, List.countP_cons]
    cases hf : f x <;> simp [hf, ih]

/-- C9: the CSAT step never fails the run.  For every configuration it
appends only CSAT-keyed records after the untouched incoming payload; with an
unset path or a missing file nothing is appended; and exactly the rows with a
readable score produce a monthly record (malformed rows are skipped). -/
theorem C9_csat_graceful :
    (∀ (c : CsatSource) (p : List Metric),
      push_csat_from_csv_if_present c p = p ++ csatRecords c)
    ∧ csatRecords CsatSource.unset = []
    ∧ csatRecords CsatSource.missing = []
    ∧ (∀ (rows : List Row) (r : Metric), r ∈ csatRecords (.file rows) →
        r.key = "enchant_csat_avg_monthly" ∨ r.key = "enchant_csat_avg_2025")
    ∧ (∀ rows : List Row,
        ((csatRecords (.file rows)).countP fun r => r.key == "enchant_csat_avg_monthly") =
          rows.countP fun r => (rowScore r).isSome) := by
  refine ⟨fun _ _ => rfl, rfl, rfl, ?_, ?_⟩
  · intro rows r hr
    simp only [csatRecords, List.mem_append] at hr
    rcases hr with hr | hr
    · obtain ⟨row, _, hrow⟩ := List.mem_filterMap.mp hr
      obtain ⟨q, _, hq⟩ := Option.map_eq_some'.mp hrow
      left
      rw [← hq]
    · split at hr
      · simp at hr
      · simp only [List.mem_singleton] at hr
        right
        rw [hr]
  · intro rows
    simp only [csatRecords, List.countP_append]
    have h1 : ((rows.filterMap fun r =>
          (rowScore r).map fun q =>
            ({ key := "enchant_csat_avg_monthly", value := round2 q,
               date := some (to_month_iso (dateRaw r)) } : Metric)).countP
          fun r => r.key == "enchant_csat_avg_monthly") =
        (rows.filterMap fun r =>
          (rowScore r).map fun q =>
            ({ key := "enchant_csat_avg_monthly", value := round2 q,
               date := some (to_month_iso (dateRaw r)) } : Metric)).length := by
      apply List.countP_eq_length.mpr
      intro r hr
      obtain ⟨row, _, hrow⟩ := List.mem_filterMap.mp hr
      obtain ⟨q, _, hq⟩ := Option.map_eq_some'.mp hrow
      rw [← hq]
      rfl
    rw [h1, length_filterMap_isSome]
    have h2 : ∀ rows1 : List Row, (rows1.countP fun r =>
        ((rowScore r).map fun q =>
          ({ key := "enchant_csat_avg_monthly", value := round2 q,
             date := some (to_month_iso (dateRaw r)) } : Metric)).isSome) =
        rows1.countP fun r => (rowScore r).isSome := by
      intro rows1
      apply List.countP_congr
      intro r _
      cases h : rowScore r <;> simp [h]
    have h3 : (if (rows.filterMap rowScore).isEmpty then ([] : List Metric)
        else [{ key := "enchant_csat_avg_2025",
                value := round2 ((rows.filterMap rowScore).sum /
                  ((rows.filterMap rowScore).length : ℚ)), date := none }]).countP
        (fun r => r.key == "enchant_csat_avg_monthly") = 0 := by
      split
      · rfl
      · rfl
    rw [h2, h3]
    omega


/-- A CSV row with a readable score, and one whose score is malformed. -/
def goodCsatRow : Row := [("date", "2025-03"), ("csat_percent", "90")]

def badCsatRow : Row := [("date", "2025-04"), ("csat_percent", "oops")]

theorem pyFloat_90 : pyFloat "90" = some 90 := by
  have h : pyFloat "90" = some ((1 : ℚ) * (((digitsToNat ['9','0'] : Nat) : ℚ)
      + ((digitsToNat ([] : List Char) : Nat) : ℚ) / (10 : ℚ) ^ (([] : List Char)).length)) := rfl
  rw [h, show digitsToNat ['9','0'] = 90 from by decide,
    show digitsToNat ([] : List Char) = 0 from rfl]
  norm_num

theorem rowScore_good : rowScore goodCsatRow = some 90 := by
  have h : rowScore goodCsatRow = pyFloat "90" := rfl
  rw [h, pyFloat_90]

theorem csatRecords_good :
    csatRecords (.file [goodCsatRow]) =
      [{ key := "enchant_csat_avg_monthly", value := 90, date := some "2025-03-01T00:00:00Z" },
       { key := "enchant_csat_avg_2025", value := 90, date := none }] := by
  simp only [csatRecords, List.filterMap_cons, List.filterMap_nil, rowScore_good,
    Option.map_some', List.isEmpty_cons]
  norm_num [round2, bankerRound, List.sum_cons, List.sum_nil]
  decide

theorem C9_witness :
    (Metric.key { key := "enchant_csat_avg_monthly", value := 90,
                  date := some "2025-03-01T00:00:00Z" } = "enchant_csat_avg_monthly"
      ∨ Metric.key { key := "enchant_csat_avg_monthly", value := 90,
                     date := some "2025-03-01T00:00:00Z" } = "enchant_csat_avg_2025")
    ∧ ((csatRecords (.file [goodCsatRow, badCsatRow])).countP
          fun r => r.key == "enchant_csat_avg_monthly") =
        [goodCsatRow, badCsatRow].countP fun r => (rowScore r).isSome :=
  ⟨C9_csat_graceful.2.2.2.1 [goodCsatRow] _ (by rw [csatRecords_good]; simp),
   C9_csat_graceful.2.2.2.2 [goodCsatRow, badCsatRow]⟩

/-! ## Correctness of the insertion sort used to model `sorted` -/

theorem mem_insertLe {α : Type} (le : α → α → Bool) (x : α) :
    ∀ (l : List α) (z : α), z ∈ insertLe le x l ↔ z = x ∨ z ∈ l := by
  intro l
  induction l with
  | nil => intro z; simp [insertLe]
  | cons y ys ih =>
    intro z
    unfold insertLe
    split
    · simp [List.mem_cons]
    · simp [List.mem_cons, ih]
      tauto

theorem mem_isort {α : Type} (le : α → α → Bool) :
    ∀ (l : List α) (z : α), z ∈ isort le l ↔ z ∈ l := by
  intro l
  induction l with
  | nil => intro z; simp [isort]
  | cons y ys ih =>
    intro z
    unfold isort
    rw [mem_insertLe]
    simp [ih]

theorem length_insertLe {α : Type} (le : α → α → Bool) (x : α) :
    ∀ l : List α, (insertLe le x l).length = l.length + 1 := by
  intro l
  induction l with
  | nil => rfl
  | cons y ys ih =>
    unfold insertLe
    split
    · rfl
    · simp only [List.length_cons, ih]

theorem length_isort {α : Type} (le : α → α → Bool) :
    ∀ l : List α, (isort le l).length = l.length := by
  intro l
  induction l with
  | nil => rfl
  | cons y ys ih => unfold isort; rw [length_insertLe, ih]; rfl

theorem pairwise_insertLe {α : Type} (le : α → α → Bool)
    (htot : ∀ a b, le a b = false → le b a = true)
    (htrans : ∀ a b c, le a b = true → le b c = true → le a c = true) (x : α) :
    ∀ l : List α, l.Pairwise (fun a b => le a b = true) →
      (insertLe le x l).Pairwise (fun a b => le a b = true) := by
  intro l
  induction l with
  | nil => intro _; simp [insertLe]
  | cons y ys ih =>
    intro hp
    rw [List.pairwise_cons] at hp
    obtain ⟨hy, hys⟩ := hp
    unfold insertLe
    split
    · next hxy =>
      rw [List.pairwise_cons]
      refine ⟨?_, List.pairwise_cons.mpr ⟨hy, hys⟩⟩
      intro z hz
      rcases List.mem_cons.mp hz with rfl | hz
      · exact hxy
      · exact htrans x y z hxy (hy z hz)
    · next hxy =>
      rw [List.pairwise_cons]
      refine ⟨?_, ih hys⟩
      intro z hz
      rcases (mem_insertLe le x ys z).mp hz with rfl | hz
      · exact htot z y (by simpa using hxy)
      · exact hy z hz

theorem pairwise_isort {α : Type} (le : α → α → Bool)
    (htot : ∀ a b, le a b = false → le b a = true)
    (htrans : ∀ a b c, le a b = true → le b c = true → le a c = true) :
    ∀ l : List α, (isort le l).Pairwise (fun a b => le a b = true) := by
  intro l
  induction l with
  | nil => simp [isort]
  | cons y ys ih => exact pairwise_insertLe le htot htrans y _ ih

theorem tagLe_total : ∀ a b : String × Nat, tagLe a b = false → tagLe b a = true := by
  intro a b h
  simp [tagLe] at h ⊢
  omega

theorem tagLe_trans : ∀ a b c : String × Nat,
    tagLe a b = true → tagLe b c = true → tagLe a c = true := by
  intro a b c h1 h2
  simp [tagLe] at h1 h2 ⊢
  omega

theorem listLex_total : ∀ l1 l2 : List Char, listLex l1 l2 = false → listLex l2 l1 = true := by
  intro l1
  induction l1 with
  | nil => intro l2 h; simp [listLex] at h
  | cons a as ih =>
    intro l2 h
    cases l2 with
    | nil => rfl
    | cons b bs =>
      unfold listLex at h ⊢
      split_ifs at h ⊢ with h1 h2 h3 h4 <;>
        first
        | rfl
        | omega
        | exact ih bs h
        | simp at h

theorem listLex_trans : ∀ l1 l2 l3 : List Char,
    listLex l1 l2 = true → listLex l2 l3 = true → listLex l1 l3 = true := by
  intro l1
  induction l1 with
  | nil => intro l2 l3 _ _; rfl
  | cons a as ih =>
    intro l2 l3 h12 h23
    cases l2 with
    | nil => simp [listLex] at h12
    | cons b bs =>
      cases l3 with
      | nil => simp [listLex] at h23
      | cons c cs =>
        unfold listLex at h12 h23 ⊢
        split_ifs at h12 h23 ⊢ <;>
          first
          | rfl
          | omega
          | exact ih bs cs h12 h23
          | simp at h12
          | simp at h23

theorem strLeB_total : ∀ a b : String, strLeB a b = false → strLeB b a = true := by
  intro a b h
  exact listLex_total a.data b.data h

theorem strLeB_trans : ∀ a b c : String,
    strLeB a b = true → strLeB b c = true → strLeB a c = true := by
  intro a b c h1 h2
  exact listLex_trans a.data b.data c.data h1 h2

/-! ## C7: the top-tag list -/

theorem mem_bumpNat_key : ∀ (l : List (String × Nat)) (k : String) (p : String × Nat),
    p ∈ bumpNat l k → p.1 = k ∨ p ∈ l := by
  intro l k
  induction l with
  | nil => intro p hp; simp [bumpNat] at hp; simp [hp]
  | cons q rest ih =>
    intro p hp
    obtain ⟨k', v⟩ := q
    unfold bumpNat at hp
    split at hp
    · next he =>
      rcases List.mem_cons.mp hp with rfl | hp
      · exact Or.inl he
      · exact Or.inr (List.mem_cons_of_mem _ hp)
    · rcases List.mem_cons.mp hp with rfl | hp
      · exact Or.inr (List.mem_cons_self _ _)
      · rcases ih p hp with h | h
        · exact Or.inl h
        · exact Or.inr (List.mem_cons_of_mem _ h)

/-- The invariant the tag-counting loop maintains: no empty and no excluded
tag name is ever a key. -/
def TagInv (tc : List (String × Nat)) : Prop :=
  ∀ p ∈ tc, p.1 ∉ EXCLUDED_TAGS ∧ p.1 ≠ ""

theorem countLabels_inv : ∀ (ls : List LabelVal) (tc : List (String × Nat)),
    TagInv tc → TagInv (countLabels tc ls) := by
  intro ls
  induction ls with
  | nil => intro tc h; exact h
  | cons l ls ih =>
    intro tc h
    unfold countLabels
    split
    · exact ih tc h
    · next name hname =>
      split
      · exact ih tc h
      · next hguard =>
        push_neg at hguard
        refine ih _ ?_
        intro p hp
        rcases mem_bumpNat_key tc name p hp with hk | hk
        · rw [hk]; exact ⟨hguard.2, hguard.1⟩
        · exact h p hk

theorem aggregate_tagInv (ts : List Ticket) : TagInv (aggregate ts).tag_counts := by
  have hstep : ∀ (a : Agg) (t : Ticket), TagInv a.tag_counts → TagInv (agg_step a t).tag_counts := by
    intro a t h
    unfold agg_step
    split
    · exact h
    · split
      · exact h
      · split
        · exact h
        · show TagInv (countLabels a.tag_counts (t.labels.getD []))
          exact countLabels_inv _ _ h
  exact foldl_agg_inv hstep ts initAgg (by intro p hp; simp [initAgg] at hp)

/-- C7: for the tag table of any aggregated ticket stream, the emitted
top-tag record list has at most 10 entries, its values are in descending
order, and no tag of the exclusion set (nor an empty tag) appears among the
sorted-and-truncated pairs it is built from. -/
theorem C7_top_tags (ts : List Ticket) :
    (topTagRecs (aggregate ts).tag_counts).length ≤ 10
    ∧ (topTagRecs (aggregate ts).tag_counts).Pairwise (fun r1 r2 => r2.value ≤ r1.value)
    ∧ ∀ p ∈ (isort tagLe (aggregate ts).tag_counts).take 10, p.1 ∉ EXCLUDED_TAGS := by
  refine ⟨?_, ?_, ?_⟩
  · rw [topTagRecs, List.length_map]
    exact List.length_take_le _ _
  · rw [topTagRecs]
    rw [List.pairwise_map]
    have hs : (isort tagLe (aggregate ts).tag_counts).Pairwise (fun a b => tagLe a b = true) :=
      pairwise_isort tagLe tagLe_total tagLe_trans _
    have ht := hs.sublist (List.take_sublist 10 _)
    refine ht.imp ?_
    intro a b hab
    simp only [tagLe, decide_eq_true_eq] at hab
    show ((b.2 : Nat) : ℚ) ≤ ((a.2 : Nat) : ℚ)
    exact_mod_cast hab
  · intro p hp
    have hp2 : p ∈ isort tagLe (aggregate ts).tag_counts :=
      (List.take_sublist 10 _).subset hp
    have hp3 : p ∈ (aggregate ts).tag_counts := (mem_isort tagLe _ p).mp hp2
    exact (aggregate_tagInv ts p hp3).1

theorem C7_witness :
    (topTagRecs (aggregate [scenarioT1]).tag_counts).length ≤ 10
    ∧ ("Bug", 1).1 ∉ EXCLUDED_TAGS :=
  ⟨(C7_top_tags [scenarioT1]).1,
   (C7_top_tags [scenarioT1]).2.2 ("Bug", 1) (by decide)⟩

/-! ## C10: month buckets of the average series are safe -/

theorem bumpNat_pos : ∀ (l : List (String × Nat)) (k : String),
    (∀ q ∈ l, 1 ≤ q.2) → ∀ p ∈ bumpNat l k, 1 ≤ p.2 := by
  intro l k
  induction l with
  | nil =>
    intro _ p hp
    simp [bumpNat] at hp
    simp [hp]
  | cons q rest ih =>
    intro h p hp
    obtain ⟨k', v⟩ := q
    unfold bumpNat at hp
    split at hp
    · rcases List.mem_cons.mp hp with rfl | hp
      · show 1 ≤ v + 1; omega
      · exact h p (List.mem_cons_of_mem _ hp)
    · rcases List.mem_cons.mp hp with rfl | hp
      · exact h (k', v) (List.mem_cons_self _ _)
      · exact ih (fun q hq => h q (List.mem_cons_of_mem _ hq)) p hp

theorem mem_keysOf_bumpNat : ∀ (l : List (String × Nat)) (k x : String),
    x ∈ keysOf (bumpNat l k) ↔ x ∈ keysOf l ∨ x = k := by
  intro l k
  induction l with
  | nil => intro x; simp [bumpNat, keysOf]
  | cons q rest ih =>
    intro x
    obtain ⟨k', v⟩ := q
    unfold bumpNat
    split
    · next he =>
      subst he
      simp [keysOf, List.mem_cons]
      tauto
    · simp only [keysOf, List.map_cons, List.mem_cons] at ih ⊢
      rw [ih]
      tauto

theorem lookupNat_pos : ∀ (l : List (String × Nat)) (x : String),
    (∀ q ∈ l, 1 ≤ q.2) → x ∈ keysOf l → 1 ≤ lookupNat l x := by
  intro l
  induction l with
  | nil => intro x _ hx; simp [keysOf] at hx
  | cons q rest ih =>
    intro x h hx
    obtain ⟨k', v⟩ := q
    by_cases he : k' = x
    · subst he
      have hl : lookupNat ((k', v) :: rest) k' = v := by
        simp [lookupNat, List.find?_cons_of_pos]
      rw [hl]
      exact h (k', v) (List.mem_cons_self _ _)
    · have hl : lookupNat ((k', v) :: rest) x = lookupNat rest x := by
        simp only [lookupNat]
        rw [List.find?_cons_of_neg _ (by simpa using he)]
      rw [hl]
      refine ih x (fun q hq => h q (List.mem_cons_of_mem _ hq)) ?_
      simp only [keysOf, List.map_cons, List.mem_cons] at hx
      tauto

/-- Destructor for a relevant ticket: the guards the loop body passed. -/
theorem relevant_true_elim {t : Ticket} (h : relevantB t = true) :
    ∃ u, parse_iso_z t.updated_at = some u ∧ ¬toSec u < toSec year_start_dt
      ∧ ¬t.state ≠ some "closed" := by
  unfold relevantB at h
  split at h
  · exact absurd h (by simp)
  · next hs =>
    split at h
    · exact absurd h (by simp)
    · next u hp =>
      split at h
      · exact absurd h (by simp)
      · next hlt => exact ⟨u, hp, hlt, hs⟩

/-- The record `agg_step` builds for a relevant ticket, with every field
explicit. -/
theorem agg_step_relevant_eq (a : Agg) (t : Ticket) (u : Datetime)
    (hs : ¬t.state ≠ some "closed") (hu : parse_iso_z t.updated_at = some u)
    (hlt : ¬toSec u < toSec year_start_dt) :
    agg_step a t =
      { resolved_total := a.resolved_total + 1
        res_minutes_all := a.res_minutes_all ++
          (match minutes_between t.created_at t.updated_at with | some q => [q] | none => [])
        tag_counts := countLabels a.tag_counts (t.labels.getD [])
        m_counts := bumpNat a.m_counts (month_floor_iso u)
        m_res_sum := match minutes_between t.created_at t.updated_at with
          | some q => addQ a.m_res_sum (month_floor_iso u) q
          | none => a.m_res_sum
        m_res_n := match minutes_between t.created_at t.updated_at with
          | some _ => bumpNat a.m_res_n (month_floor_iso u)
          | none => a.m_res_n } := by
  simp only [agg_step, hu]
  rw [if_neg hs, if_neg hlt]

/-- The invariant behind C10: every month key of the duration-count
accumulator has a value of at least 1 and also appears among the keys of the
resolved-count accumulator. -/
def MonthInv (a : Agg) : Prop :=
  (∀ p ∈ a.m_res_n, 1 ≤ p.2) ∧ ∀ x ∈ keysOf a.m_res_n, x ∈ keysOf a.m_counts

theorem aggregate_monthInv (ts : List Ticket) : MonthInv (aggregate ts) := by
  have hstep : ∀ (a : Agg) (t : Ticket), MonthInv a → MonthInv (agg_step a t) := by
    intro a t h
    by_cases hr : relevantB t = true
    · obtain ⟨u, hu, hlt, hs⟩ := relevant_true_elim hr
      rw [agg_step_relevant_eq a t u hs hu hlt]
      cases hm : minutes_between t.created_at t.updated_at with
      | none =>
        simp only [MonthInv, hm]
        exact ⟨h.1, fun x hx =>
          (mem_keysOf_bumpNat a.m_counts (month_floor_iso u) x).mpr (Or.inl (h.2 x hx))⟩
      | some q =>
        simp only [MonthInv, hm]
        constructor
        · exact bumpNat_pos a.m_res_n (month_floor_iso u) h.1
        · intro x hx
          rcases (mem_keysOf_bumpNat a.m_res_n (month_floor_iso u) x).mp hx with hx | rfl
          · exact (mem_keysOf_bumpNat a.m_counts _ x).mpr (Or.inl (h.2 x hx))
          · exact (mem_keysOf_bumpNat a.m_counts _ _).mpr (Or.inr rfl)
    · rw [agg_step_of_not_relevant a (by simpa using hr)]
      exact h
  exact foldl_agg_inv hstep ts initAgg ⟨by simp [initAgg], by simp [initAgg, keysOf]⟩

/-- C10: after aggregating any stream, every month key of the duration-count
accumulator has count at least 1 (so the per-month average division is by a
positive number) and is also a key of the resolved-count accumulator, and
every record of the monthly average series shares its date with some record of
the monthly count series. -/
theorem C10_avg_months_safe (ts : List Ticket) :
    (∀ p ∈ (aggregate ts).m_res_n, 1 ≤ p.2)
    ∧ (∀ x ∈ keysOf (aggregate ts).m_res_n,
        x ∈ keysOf (aggregate ts).m_counts ∧ 1 ≤ lookupNat (aggregate ts).m_res_n x)
    ∧ ∀ r ∈ monthAvgRecs (aggregate ts).m_res_sum (aggregate ts).m_res_n,
        ∃ r2 ∈ monthCountRecs (aggregate ts).m_counts, r2.date = r.date := by
  obtain ⟨h1, h2⟩ := aggregate_monthInv ts
  refine ⟨h1, fun x hx => ⟨h2 x hx, lookupNat_pos _ x h1 hx⟩, ?_⟩
  intro r hr
  rw [monthAvgRecs] at hr
  obtain ⟨mon, hmon, hrec⟩ := List.mem_map.mp hr
  have hmon2 : mon ∈ keysOf (aggregate ts).m_res_n := (mem_isort strLeB _ mon).mp hmon
  have hmon3 : mon ∈ keysOf (aggregate ts).m_counts := h2 mon hmon2
  refine ⟨{ key := "enchant_resolved_monthly",
            value := (lookupNat (aggregate ts).m_counts mon : ℚ), date := some mon }, ?_, ?_⟩
  · rw [monthCountRecs]
    exact List.mem_map.mpr ⟨mon, (mem_isort strLeB _ mon).mpr hmon3, rfl⟩
  · rw [← hrec]

theorem C10_witness :
    ("2025-01-01T00:00:00Z", 1) ∈ (aggregate [scenarioT1]).m_res_n →
      (1 ≤ (("2025-01-01T00:00:00Z", 1) : String × Nat).2) :=
  fun h => (C10_avg_months_safe [scenarioT1]).1 _ h

def okOrU (c : Char) : Prop := isLowerAlnum c = true ∨ c = '_'

theorem ok_ne_underscore {c : Char} (h : isLowerAlnum c = true) : c ≠ '_' :=
  fun he => absurd (he ▸ h) (by decide)

theorem toLower_fix {c : Char} (h : okOrU c) : c.toLower = c := by
  rcases h with h | rfl
  · simp only [isLowerAlnum, decide_eq_true_eq] at h
    unfold Char.toLower
    rw [if_neg (by omega)]
  · decide

theorem subAux_chars : ∀ (l : List Char) (b : Bool), ∀ c ∈ subAux b l, okOrU c := by
  intro l
  induction l with
  | nil => intro b c hc; simp [subAux] at hc
  | cons d ds ih =>
    intro b c hc
    unfold subAux at hc
    split at hc
    · next hok =>
      rcases List.mem_cons.mp hc with rfl | hc
      · exact Or.inl hok
      · exact ih false c hc
    · split at hc
      · exact ih true c hc
      · rcases List.mem_cons.mp hc with rfl | hc
        · exact Or.inr rfl
        · exact ih true c hc

theorem subAux_true_head : ∀ (l : List Char) (c : Char) (cs : List Char),
    subAux true l = c :: cs → c ≠ '_' := by
  intro l
  induction l with
  | nil => intro c cs h; simp [subAux] at h
  | cons d ds ih =>
    intro c cs h
    unfold subAux at h
    split at h
    · next hok =>
      injection h with h1 _
      rw [← h1]
      exact ok_ne_underscore hok
    · rw [if_pos rfl] at h
      exact ih c cs h

theorem subAux_chain : ∀ (l : List Char) (b : Bool),
    List.Chain' (fun a c => ¬(a = '_' ∧ c = '_')) (subAux b l) := by
  intro l
  induction l with
  | nil => intro b; simp [subAux]
  | cons d ds ih =>
    intro b
    unfold subAux
    split
    · next hok =>
      rw [List.chain'_cons']
      refine ⟨?_, ih false⟩
      intro y _ hy
      exact ok_ne_underscore hok hy.1
    · split
      · exact ih true
      · rw [List.chain'_cons']
        refine ⟨?_, ih true⟩
        intro y hy hcon
        rcases hds : subAux true ds with _ | ⟨e, es⟩
        · rw [hds] at hy; simp at hy
        · rw [hds] at hy
          simp at hy
          exact subAux_true_head ds e es hds (hy ▸ hcon.2)

theorem subAux_fix : ∀ l : List Char, (∀ c ∈ l, okOrU c) →
    List.Chain' (fun a c => ¬(a = '_' ∧ c = '_')) l →
    subAux false l = l ∧ ((∀ c cs, l = c :: cs → c ≠ '_') → subAux true l = l) := by
  intro l
  induction l with
  | nil => intro _ _; exact ⟨rfl, fun _ => rfl⟩
  | cons d ds ih =>
    intro hchars hchain
    have hd : okOrU d := hchars d (List.mem_cons_self _ _)
    have hds : ∀ c ∈ ds, okOrU c := fun c hc => hchars c (List.mem_cons_of_mem _ hc)
    have hchain2 : List.Chain' (fun a c => ¬(a = '_' ∧ c = '_')) ds :=
      (List.chain'_cons'.mp hchain).2
    obtain ⟨ihf, iht⟩ := ih hds hchain2
    rcases hd with hok | rfl
    · constructor
      · unfold subAux
        rw [if_pos hok, ihf]
      · intro _
        unfold subAux
        rw [if_pos hok, ihf]
    · constructor
      · unfold subAux
        rw [if_neg (by simp [isLowerAlnum])]
        rw [if_neg (by simp)]
        have hh : ∀ c cs, ds = c :: cs → c ≠ '_' := by
          intro c cs hcs heq
          have hr := (List.chain'_cons'.mp hchain).1 c (by rw [hcs]; rfl)
          exact hr ⟨rfl, heq⟩
        rw [iht hh]
      · intro hne
        exact absurd rfl (hne '_' ds rfl)

theorem head?_dropWhile_false (p : Char → Bool) :
    ∀ (l : List Char) (c : Char), (List.dropWhile p l).head? = some c → p c = false := by
  intro l
  induction l with
  | nil => intro c h; simp at h
  | cons d ds ih =>
    intro c h
    rw [List.dropWhile_cons] at h
    split at h
    · exact ih c h
    · next hd =>
      simp at h
      rw [← h]
      simpa using hd

theorem dropWhile_eq_self_of_head (p : Char → Bool) (l : List Char)
    (h : ∀ c, l.head? = some c → p c = false) : List.dropWhile p l = l := by
  cases l with
  | nil => rfl
  | cons d ds =>
    rw [List.dropWhile_cons, if_neg]
    simp [h d rfl]

theorem head?_of_take {α : Type} : ∀ (n : Nat) (l : List α) (c : α) (cs : List α),
    l.take n = c :: cs → l.head? = some c := by
  intro n l c cs h
  cases l with
  | nil => simp at h
  | cons d ds =>
    cases n with
    | zero => simp at h
    | succ n =>
      rw [List.take_succ_cons] at h
      injection h with h1 _
      rw [h1]
      rfl

theorem slugCore_chars : ∀ (l : List Char), ∀ c ∈ slugCore l, okOrU c := by
  intro l c hc
  unfold slugCore at hc
  have h1 := (List.take_sublist _ _).subset hc
  have h2 := (List.dropWhile_suffix _).sublist.subset h1
  have h3 := List.mem_reverse.mp h2
  have h4 := (List.dropWhile_suffix _).sublist.subset h3
  exact subAux_chars _ false c (List.mem_reverse.mp h4)

theorem slugCore_chain (l : List Char) :
    List.Chain' (fun a c => ¬(a = '_' ∧ c = '_')) (slugCore l) := by
  unfold slugCore
  refine List.Chain'.prefix ?_ (List.take_prefix _ _)
  refine List.Chain'.suffix ?_ (List.dropWhile_suffix _)
  rw [List.chain'_reverse]
  refine List.Chain'.suffix ?_ (List.dropWhile_suffix _)
  rw [List.chain'_reverse]
  exact (subAux_chain _ false).imp fun a b hab hc => hab hc

theorem slugCore_head (l : List Char) (c : Char) (cs : List Char)
    (h : slugCore l = c :: cs) : c ≠ '_' := by
  have hZh := head?_of_take 60 _ c cs h
  have := head?_dropWhile_false _ _ c hZh
  simpa using this

theorem slugCore_len (l : List Char) : (slugCore l).length ≤ 60 := by
  unfold slugCore
  exact List.length_take_le _ _

/-- The input whose slug is 59 `a`s followed by an underscore: the 60-char
truncation happens after stripping and leaves a trailing underscore. -/
def longTagName : String := String.mk (List.replicate 59 'a' ++ [' ', 'a'])

/-- C4 counterexample: slugifying is not idempotent on every string.  For
`longTagName` the slug is `"a"*59 ++ "_"` (truncation to 60 characters
re-introduces a trailing underscore after stripping), and slugifying that
slug strips the underscore again, producing a different string. -/
theorem C4_counterexample_truncation : slugify_tag (slugify_tag longTagName) ≠ slugify_tag longTagName := by
  decide

/-- C4 (amended): slug generation is a deterministic function of the tag
name (it is a pure function), and it is idempotent on every string whose
slug does not end in an underscore — equivalently, whenever the 60-character
truncation does not cut right after an underscore.  (The counterexample
shows the trailing-underscore case is a genuine exception.) -/
theorem C4_amended_slug_idempotent (s : String) (h : (slugify_tag s).data.getLast? ≠ some '_') :
    slugify_tag (slugify_tag s) = slugify_tag s := by
  by_cases hTe : slugCore s.data = []
  · rw [show slugify_tag s = "tag" by rw [slugify_tag, if_pos hTe]]
    decide
  · have hdef : slugify_tag s = String.mk (slugCore s.data) := by
      rw [slugify_tag, if_neg hTe]
    rw [hdef] at h ⊢
    generalize hT : slugCore s.data = T at hTe h ⊢
    have hlast : T.getLast? ≠ some '_' := h
    have hcT : ∀ c ∈ T, okOrU c := hT ▸ slugCore_chars s.data
    have hkT : List.Chain' (fun a c => ¬(a = '_' ∧ c = '_')) T := hT ▸ slugCore_chain s.data
    have hheadT : ∀ c cs, T = c :: cs → c ≠ '_' := by
      intro c cs hc
      exact slugCore_head s.data c cs (hT ▸ hc)
    have hlastT : ∀ c cs, T.reverse = c :: cs → c ≠ '_' := by
      intro c cs hc heq
      apply hlast
      rw [← List.head?_reverse, hc, heq]
      rfl
    have hlen : T.length ≤ 60 := hT ▸ slugCore_len s.data
    have hmap : T.map Char.toLower = T := by
      conv_rhs => rw [← List.map_id T]
      exact List.map_congr_left fun c hc => toLower_fix (hcT c hc)
    have hsub : subAux false T = T := (subAux_fix T hcT hkT).1
    have hrev1 : List.dropWhile (fun c => decide (c = '_')) T.reverse = T.reverse := by
      apply dropWhile_eq_self_of_head
      intro c hc
      rcases hTr : T.reverse with _ | ⟨e, es⟩
      · rw [hTr] at hc; simp at hc
      · rw [hTr] at hc
        simp at hc
        subst hc
        simpa using hlastT e es hTr
    have hdrop2 : List.dropWhile (fun c => decide (c = '_')) T = T := by
      apply dropWhile_eq_self_of_head
      intro c hc
      rcases hTv : T with _ | ⟨e, es⟩
      · exact absurd hTv hTe
      · rw [hTv] at hc
        simp at hc
        subst hc
        simpa using hheadT e es hTv
    have htake : T.take 60 = T := List.take_of_length_le hlen
    have hpipe : slugCore (String.mk T).data = T := by
      rw [show (String.mk T).data = T from rfl, slugCore, hmap, hsub, hrev1,
        List.reverse_reverse, hdrop2, htake]
    rw [slugify_tag, hpipe, if_neg hTe]

theorem C4_witness :
    (slugify_tag "Bug").data.getLast? ≠ some '_'
    ∧ slugify_tag (slugify_tag "Bug") = slugify_tag "Bug" :=
  ⟨by decide, C4_amended_slug_idempotent "Bug" (by decide)⟩

/-! ## C3: payload section order and chronology -/

/-- The field bounds every successfully parsed datetime satisfies. -/
def ValidDT (dt : Datetime) : Prop :=
  1 ≤ dt.year ∧ dt.year ≤ 9999 ∧ 1 ≤ dt.month ∧ dt.month ≤ 12 ∧ 1 ≤ dt.day
    ∧ dt.day ≤ daysInMonth dt.year dt.month ∧ dt.hour ≤ 23 ∧ dt.minute ≤ 59 ∧ dt.second ≤ 59

theorem parse_valid {os : Option String} {dt : Datetime}
    (h : parse_iso_z os = some dt) : ValidDT dt := by
  cases os with
  | none => exact absurd h (by simp [parse_iso_z])
  | some str =>
    simp only [parse_iso_z] at h
    split at h
    · exact absurd h (by simp)
    · have h2 := Option.bind_eq_some.mp h
      obtain ⟨⟨y, mo, d, hh, mi, s⟩, hpf, hmk⟩ := h2
      simp only at hmk
      unfold mkValidated at hmk
      split at hmk
      · next hb =>
        injection hmk with he
        rw [← he]
        exact hb
      · exact absurd hmk (by simp)

theorem leapsBefore_succ (y : Nat) (hy : 1 ≤ y) :
    leapsBefore y = leapsBefore (y - 1) + (if isLeap y then 1 else 0) := by
  unfold leapsBefore isLeap
  by_cases h4 : y % 4 = 0 <;> by_cases h100 : y % 100 = 0 <;> by_cases h400 : y % 400 = 0 <;>
    simp [h4, h100, h400] <;> omega

theorem daysBeforeMonth_add_day (y m d : Nat) (hm1 : 1 ≤ m) (hm2 : m ≤ 12)
    (hd : d ≤ daysInMonth y m) :
    daysBeforeMonth y m + d ≤ 365 + (if isLeap y then 1 else 0) := by
  interval_cases m <;>
    by_cases hL : isLeap y <;>
      simp [daysBeforeMonth, daysInMonth, hL] at hd ⊢ <;> omega

theorem toDays_lt (dt : Datetime) (h : ValidDT dt) :
    toDays dt < 365 * dt.year + leapsBefore dt.year := by
  obtain ⟨h1, _, h3, h4, h5, h6, _⟩ := h
  unfold toDays
  have hb := daysBeforeMonth_add_day dt.year dt.month dt.day h3 h4 h6
  have hl := leapsBefore_succ dt.year h1
  by_cases hL : isLeap dt.year <;> simp [hL] at hb hl <;> omega

theorem yearDays_mono (y1 y2 : Nat) (h : y1 ≤ y2) :
    365 * y1 + leapsBefore y1 ≤ 365 * y2 + leapsBefore y2 := by
  unfold leapsBefore
  omega

theorem year_start_toSec : toSec year_start_dt = 86400 * (365 * 2024 + leapsBefore 2024) := by
  decide

theorem year_ge_2025 {dt : Datetime} (hv : ValidDT dt)
    (h : ¬toSec dt < toSec year_start_dt) : 2025 ≤ dt.year := by
  by_contra hlt
  apply h
  have h1 : toDays dt < 365 * dt.year + leapsBefore dt.year := toDays_lt dt hv
  have h2 : 365 * dt.year + leapsBefore dt.year ≤ 365 * 2024 + leapsBefore 2024 :=
    yearDays_mono dt.year 2024 (by omega)
  have h3 : toSec dt < 86400 * (toDays dt + 1) := by
    unfold toSec
    obtain ⟨_, _, _, _, _, _, h7, h8, h9⟩ := hv
    omega
  rw [year_start_toSec]
  have : 86400 * (toDays dt + 1) ≤ 86400 * (365 * 2024 + leapsBefore 2024) := by
    apply Nat.mul_le_mul_left
    omega
  omega

theorem asciiDigit_toNat {n : Nat} (h : n ≤ 9) : (asciiDigit n).toNat = 48 + n := by
  interval_cases n <;> decide

theorem dv_asciiDigit {n : Nat} (h : n ≤ 9) : dv (asciiDigit n) = n := by
  interval_cases n <;> decide

theorem listLex_digit (a b : Nat) (ha : a ≤ 9) (hb : b ≤ 9) (as bs : List Char) :
    listLex (asciiDigit a :: as) (asciiDigit b :: bs) =
      (if a < b then true else if b < a then false else listLex as bs) := by
  have he : listLex (asciiDigit a :: as) (asciiDigit b :: bs) =
      if (asciiDigit a).toNat < (asciiDigit b).toNat then true
      else if (asciiDigit b).toNat < (asciiDigit a).toNat then false
      else listLex as bs := rfl
  rw [he, asciiDigit_toNat ha, asciiDigit_toNat hb]
  rcases Nat.lt_trichotomy a b with h | h | h
  · rw [if_pos (by omega), if_pos h]
  · subst h
    rw [if_neg (by omega), if_neg (by omega), if_neg (by omega), if_neg (by omega)]
  · rw [if_neg (by omega), if_pos (by omega), if_neg (by omega), if_pos h]

theorem listLex_cons_same (c : Char) (as bs : List Char) :
    listLex (c :: as) (c :: bs) = listLex as bs := by
  have he : listLex (c :: as) (c :: bs) =
      if c.toNat < c.toNat then true
      else if c.toNat < c.toNat then false
      else listLex as bs := rfl
  rw [he, if_neg (by omega), if_neg (by omega)]

theorem listLex_self : ∀ l : List Char, listLex l l = true := by
  intro l
  induction l with
  | nil => rfl
  | cons c cs ih => rw [listLex_cons_same, ih]

theorem data_fmtMonth (y m : Nat) :
    (fmtMonth y m).data =
      asciiDigit (y / 1000 % 10) :: asciiDigit (y / 100 % 10) :: asciiDigit (y / 10 % 10) ::
        asciiDigit (y % 10) :: '-' :: asciiDigit (m / 10 % 10) :: asciiDigit (m % 10) ::
        ("-01T00:00:00Z".data) := rfl

theorem listLex_digit10 (a b : Nat) (as bs : List Char) :
    listLex (asciiDigit (a % 10) :: as) (asciiDigit (b % 10) :: bs) =
      (if a % 10 < b % 10 then true else if b % 10 < a % 10 then false else listLex as bs) :=
  listLex_digit (a % 10) (b % 10) (by omega) (by omega) as bs

theorem ifchain_le (x1 x2 : Nat) (r : Bool)
    (h : (if x1 < x2 then true else if x2 < x1 then false else r) = true) :
    x1 < x2 ∨ (x1 = x2 ∧ r = true) := by
  by_cases h1 : x1 < x2
  · exact Or.inl h1
  · rw [if_neg h1] at h
    by_cases h2 : x2 < x1
    · rw [if_pos h2] at h
      simp at h
    · rw [if_neg h2] at h
      exact Or.inr ⟨by omega, h⟩

theorem fmtMonth_le (y1 m1 y2 m2 : Nat)
    (hy1 : 1000 ≤ y1) (hy1b : y1 ≤ 9999) (hy2 : 1000 ≤ y2) (hy2b : y2 ≤ 9999)
    (hm1 : m1 ≤ 12) (hm2 : m2 ≤ 12)
    (h : strLeB (fmtMonth y1 m1) (fmtMonth y2 m2) = true) :
    y1 < y2 ∨ (y1 = y2 ∧ m1 ≤ m2) := by
  unfold strLeB at h
  rw [data_fmtMonth, data_fmtMonth] at h
  rw [listLex_digit10] at h
  rw [listLex_digit10] at h
  rw [listLex_digit10] at h
  rw [listLex_digit10] at h
  rw [listLex_cons_same] at h
  rw [listLex_digit10] at h
  rw [listLex_digit10] at h
  rw [listLex_self] at h
  rcases ifchain_le _ _ _ h with h1 | ⟨e1, h⟩
  · omega
  rcases ifchain_le _ _ _ h with h1 | ⟨e2, h⟩
  · omega
  rcases ifchain_le _ _ _ h with h1 | ⟨e3, h⟩
  · omega
  rcases ifchain_le _ _ _ h with h1 | ⟨e4, h⟩
  · omega
  rcases ifchain_le _ _ _ h with h1 | ⟨e5, h⟩
  · omega
  rcases ifchain_le _ _ _ h with h1 | ⟨e6, h⟩
  · omega
  omega


/-- Decoder of a month-bucket key: the `(year, month)` it denotes, linearised
as `12 * year + month`; chronological order of month keys is exactly the
order of this index. -/
def monthIdx (s : String) : Nat :=
  match s.data with
  | c1 :: c2 :: c3 :: c4 :: _ :: c6 :: c7 :: _ =>
    12 * (1000 * dv c1 + 100 * dv c2 + 10 * dv c3 + dv c4) + (10 * dv c6 + dv c7)
  | _ => 0

theorem monthIdx_fmtMonth (y m : Nat) (hy : y ≤ 9999) (hm : m ≤ 99) :
    monthIdx (fmtMonth y m) = 12 * y + m := by
  have he : monthIdx (fmtMonth y m) =
      12 * (1000 * dv (asciiDigit (y / 1000 % 10)) + 100 * dv (asciiDigit (y / 100 % 10))
        + 10 * dv (asciiDigit (y / 10 % 10)) + dv (asciiDigit (y % 10)))
      + (10 * dv (asciiDigit (m / 10 % 10)) + dv (asciiDigit (m % 10))) := rfl
  rw [he, dv_asciiDigit (by omega), dv_asciiDigit (by omega), dv_asciiDigit (by omega),
    dv_asciiDigit (by omega), dv_asciiDigit (by omega), dv_asciiDigit (by omega)]
  omega

/-- The shape of every month-bucket key a relevant ticket can produce. -/
def GoodKey (s : String) : Prop :=
  ∃ y m, 2025 ≤ y ∧ y ≤ 9999 ∧ 1 ≤ m ∧ m ≤ 12 ∧ s = fmtMonth y m

theorem goodKey_le {s1 s2 : String} (g1 : GoodKey s1) (g2 : GoodKey s2)
    (h : strLeB s1 s2 = true) : monthIdx s1 ≤ monthIdx s2 := by
  obtain ⟨y1, m1, hy1, hy1b, hm1, hm1b, rfl⟩ := g1
  obtain ⟨y2, m2, hy2, hy2b, hm2, hm2b, rfl⟩ := g2
  rw [monthIdx_fmtMonth y1 m1 hy1b (by omega), monthIdx_fmtMonth y2 m2 hy2b (by omega)]
  have := fmtMonth_le y1 m1 y2 m2 (by omega) hy1b (by omega) hy2b hm1b hm2b h
  omega

theorem goodKey_month_floor {t : Ticket} {u : Datetime}
    (hu : parse_iso_z t.updated_at = some u)
    (hlt : ¬toSec u < toSec year_start_dt) : GoodKey (month_floor_iso u) := by
  have hv := parse_valid hu
  obtain ⟨h1, h2, h3, h4, _⟩ := hv
  exact ⟨u.year, u.month, year_ge_2025 (parse_valid hu) hlt, h2, h3, h4, rfl⟩

theorem aggregate_goodKeys (ts : List Ticket) :
    (∀ x ∈ keysOf (aggregate ts).m_counts, GoodKey x)
    ∧ (∀ x ∈ keysOf (aggregate ts).m_res_n, GoodKey x) := by
  have hstep : ∀ (a : Agg) (t : Ticket),
      ((∀ x ∈ keysOf a.m_counts, GoodKey x) ∧ (∀ x ∈ keysOf a.m_res_n, GoodKey x)) →
      ((∀ x ∈ keysOf (agg_step a t).m_counts, GoodKey x)
        ∧ (∀ x ∈ keysOf (agg_step a t).m_res_n, GoodKey x)) := by
    intro a t h
    by_cases hr : relevantB t = true
    · obtain ⟨u, hu, hlt, hs⟩ := relevant_true_elim hr
      rw [agg_step_relevant_eq a t u hs hu hlt]
      have hg : GoodKey (month_floor_iso u) := goodKey_month_floor hu hlt
      cases hm : minutes_between t.created_at t.updated_at with
      | none =>
        simp only [hm]
        refine ⟨?_, h.2⟩
        intro x hx
        rcases (mem_keysOf_bumpNat a.m_counts (month_floor_iso u) x).mp hx with hx | rfl
        · exact h.1 x hx
        · exact hg
      | some q =>
        simp only [hm]
        constructor
        · intro x hx
          rcases (mem_keysOf_bumpNat a.m_counts (month_floor_iso u) x).mp hx with hx | rfl
          · exact h.1 x hx
          · exact hg
        · intro x hx
          rcases (mem_keysOf_bumpNat a.m_res_n (month_floor_iso u) x).mp hx with hx | rfl
          · exact h.2 x hx
          · exact hg
    · rw [agg_step_of_not_relevant a (by simpa using hr)]
      exact h
  exact foldl_agg_inv hstep ts initAgg ⟨by simp [initAgg, keysOf], by simp [initAgg, keysOf]⟩

/-- The chronological position a series record's date denotes. -/
def dateIdx (r : Metric) : Nat := (r.date.map monthIdx).getD 0

theorem sorted_goodKeys (keys : List String) (hg : ∀ x ∈ keys, GoodKey x) :
    (isort strLeB keys).Pairwise (fun a b => monthIdx a ≤ monthIdx b) := by
  refine (pairwise_isort strLeB strLeB_total strLeB_trans keys).imp_of_mem ?_
  intro a b ha hb hab
  exact goodKey_le (hg a ((mem_isort strLeB _ a).mp ha)) (hg b ((mem_isort strLeB _ b).mp hb)) hab

/-- C3 (amended): the payload is, in order, (1) the scalar year-total,
(2) the scalar year-average resolution, (3) at most 10 tag-count records,
(4) the monthly resolved-count series, (5) the monthly average-resolution
series, one record per month with duration data, and (6) when a CSAT CSV is
available, its records at the very end — the monthly CSAT rows in file order
followed by the scalar year-average CSAT (the scalar is last, not third as
the claim stated; compare the counterexample).  Both ticket-derived monthly
series are sorted chronologically (their 12·year+month indices are
non-decreasing). -/
theorem C3_payload_order_amended (ts : List Ticket) (c : CsatSource) :
    build_payload (aggregate ts) c =
      [{ key := "enchant_resolved_2025_total",
         value := ((aggregate ts).resolved_total : ℚ), date := none },
       { key := "enchant_resolution_minutes_avg_2025",
         value := avg_resolution_year (aggregate ts), date := none }]
      ++ topTagRecs (aggregate ts).tag_counts
      ++ monthCountRecs (aggregate ts).m_counts
      ++ monthAvgRecs (aggregate ts).m_res_sum (aggregate ts).m_res_n
      ++ csatRecords c
    ∧ (topTagRecs (aggregate ts).tag_counts).length ≤ 10
    ∧ (monthCountRecs (aggregate ts).m_counts).Pairwise
        (fun r1 r2 => dateIdx r1 ≤ dateIdx r2)
    ∧ (monthAvgRecs (aggregate ts).m_res_sum (aggregate ts).m_res_n).Pairwise
        (fun r1 r2 => dateIdx r1 ≤ dateIdx r2)
    ∧ (monthAvgRecs (aggregate ts).m_res_sum (aggregate ts).m_res_n).length =
        (aggregate ts).m_res_n.length := by
  obtain ⟨hg1, hg2⟩ := aggregate_goodKeys ts
  refine ⟨?_, ?_, ?_, ?_, ?_⟩
  · simp [build_payload, push_csat_from_csv_if_present, List.append_assoc]
  · rw [topTagRecs, List.length_map]
    exact List.length_take_le _ _
  · rw [monthCountRecs, List.pairwise_map]
    exact (sorted_goodKeys _ hg1).imp fun h => h
  · rw [monthAvgRecs, List.pairwise_map]
    exact (sorted_goodKeys _ hg2).imp fun h => h
  · rw [monthAvgRecs, List.length_map, length_isort, keysOf, List.length_map]

/-- C3 counterexample: on a run with one relevant tagged ticket and a
readable CSAT CSV, the record at index 2 (the claimed position of the CSAT
scalar) is a tag record, while the CSAT scalar is the very last record of
the payload.  The claimed fixed order (CSAT scalar third, monthly CSAT rows
seventh) is therefore false. -/
theorem C3_counterexample_csat_position :
    ((build_payload (aggregate [scenarioT1]) (.file [goodCsatRow])).map Metric.key)[2]? =
        some "enchant_tag_bug_2025_count"
    ∧ "enchant_csat_avg_2025" ∈
        (build_payload (aggregate [scenarioT1]) (.file [goodCsatRow])).map Metric.key
    ∧ ((build_payload (aggregate [scenarioT1]) (.file [goodCsatRow])).map Metric.key).getLast? =
        some "enchant_csat_avg_2025"
    ∧ "enchant_tag_bug_2025_count" ≠ "enchant_csat_avg_2025" := by
  refine ⟨?_, ?_, ?_, ?_⟩ <;> decide
